import Mathlib

/-!
Verification of the PR review engine (`reviews/review_engine.py`).

Strings are modelled as `List Char`.  Python's `str.lower()` is modelled by
mapping `Char.toLower` (the repository only feeds ASCII branch names, file
paths and commit messages through these code paths).  Python `fnmatch`
pattern matching is modelled for the wildcards `*` and `?` (no rule or
file pattern in the repository uses bracket classes).
-/

namespace PRReview

/-- Python `str.lower()`. -/
def lower (s : List Char) : List Char := s.map Char.toLower

/-- Python `needle in haystack` (substring containment). -/
def containsSub (n : List Char) : List Char → Bool
  | [] => n.isEmpty
  | c :: cs => n.isPrefixOf (c :: cs) || containsSub n cs

/-- Case-insensitive substring test: `re.search(lit, s, re.IGNORECASE)`
for a literal pattern `lit`. -/
def ciContainsSub (n s : List Char) : Bool := containsSub (lower n) (lower s)

/-- Helper for the `*` wildcard: try the continuation on every suffix of
the string (a `*` absorbs any run of characters, `/` included). -/
def globTryTails (m : List Char → Bool) : List Char → Bool
  | [] => m []
  | c :: cs => m (c :: cs) || globTryTails m cs

/-- `fnmatch.fnmatch` on POSIX: `*` matches any run of characters
(including `/`), `?` matches exactly one character, any other pattern
character matches itself.  (No pattern in the repository uses bracket
classes, so they are not modelled.) -/
def globMatch : List Char → List Char → Bool
  | [], s => s.isEmpty
  | '*' :: ps, s => globTryTails (globMatch ps) s
  | '?' :: ps, s =>
    match s with
    | [] => false
    | _ :: cs => globMatch ps cs
  | p :: ps, s =>
    match s with
    | [] => false
    | c :: cs => (p == c) && globMatch ps cs

/-- `for p in ps: if name.startswith(p): ...` — true iff some pattern in
`ps` is a prefix of `bl`. -/
def swAny (ps : List (List Char)) (bl : List Char) : Bool :=
  ps.any (fun p => p.isPrefixOf bl)

/-- `ReviewEngine.get_branch_type`: classify a branch name by
case-insensitive prefix match, in source order. -/
def get_branch_type (branch_name : List Char) : String :=
  let bl := lower branch_name
  if swAny ["feature/".toList, "feat/".toList, "features/".toList] bl then "feature"
  else if swAny ["bugfix/".toList, "bug/".toList, "fix/".toList] bl then "bugfix"
  else if swAny ["hotfix/".toList, "hot/".toList, "emergency/".toList] bl then "hotfix"
  else if swAny ["release/".toList, "releases/".toList, "rel/".toList] bl then "release"
  else if swAny ["refactor/".toList, "refactoring/".toList, "cleanup/".toList] bl then "refactor"
  else "other"

/-- The ordered synonym-prefix table of the specification (§4.1):
tag order `feature, bugfix, hotfix, release, refactor`. -/
def branchTable : List (String × List (List Char)) :=
  [("feature", ["feature/".toList, "feat/".toList, "features/".toList]),
   ("bugfix", ["bugfix/".toList, "bug/".toList, "fix/".toList]),
   ("hotfix", ["hotfix/".toList, "hot/".toList, "emergency/".toList]),
   ("release", ["release/".toList, "releases/".toList, "rel/".toList]),
   ("refactor", ["refactor/".toList, "refactoring/".toList, "cleanup/".toList])]

/-- First-match lookup over an ordered tag table; no match yields `other`. -/
def lookupTag (bl : List Char) : List (String × List (List Char)) → String
  | [] => "other"
  | e :: rest => if swAny e.2 bl then e.1 else lookupTag bl rest

/-- Modelled from the spec (§4.1): case-insensitive first-matching-tag
lookup over the ordered synonym table; no match yields `other`. -/
def specBranchType (branch_name : List Char) : String :=
  lookupTag (lower branch_name) branchTable

end PRReview

namespace PRReview

/-- C9: `get_branch_type` is total and agrees everywhere with the spec's
ordered first-match prefix-table classification: a name whose lower-cased
form starts with a recognized synonym prefix gets the first matching tag
in the order feature, bugfix, hotfix, release, refactor, and any other
name gets `other`. -/
theorem get_branch_type_eq_spec (s : List Char) :
    get_branch_type s = specBranchType s := by
  unfold get_branch_type specBranchType branchTable lookupTag
  rfl

end PRReview

namespace PRReview

/-! ## File analysis (`ReviewEngine.analyze_files`) -/

/-- One changed-file record, as consumed from the provider:
`file.get('filename', '')`, `file.get('additions', 0)`,
`file.get('deletions', 0)`. -/
structure FileD where
  filename : List Char
  additions : Nat
  deletions : Nat
deriving DecidableEq

/-- `ReviewEngine.TEST_PATTERNS`. -/
def TEST_PATTERNS : List (List Char) :=
  ["*test*.py".toList, "*_test.py".toList, "test_*.py".toList,
   "*spec*.js".toList, "*test*.js".toList, "*.spec.ts".toList, "*.test.ts".toList,
   "*Test.java".toList, "*Tests.java".toList,
   "*_test.go".toList, "*_test.rb".toList]

/-- `ReviewEngine.DOC_PATTERNS`. -/
def DOC_PATTERNS : List (List Char) :=
  ["*.md".toList, "*.rst".toList, "*.txt".toList, "docs/*".toList, "documentation/*".toList,
   "README*".toList, "CHANGELOG*".toList, "CONTRIBUTING*".toList]

/-- The test-file classification loop: `fnmatch(filename.lower(), pattern.lower())`
for some test pattern (the loop `break`s on the first hit, so each file is
appended at most once). -/
def isTestFile (filename : List Char) : Bool :=
  TEST_PATTERNS.any (fun p => globMatch (lower p) (lower filename))

/-- The doc-file classification loop. -/
def isDocFile (filename : List Char) : Bool :=
  DOC_PATTERNS.any (fun p => globMatch (lower p) (lower filename))

/-- `filename.split(sep)` (Python `str.split` on a single character). -/
def splitOnChar (sep : Char) : List Char → List (List Char)
  | [] => [[]]
  | c :: cs =>
    if c = sep then [] :: splitOnChar sep cs
    else
      match splitOnChar sep cs with
      | l :: ls => (c :: l) :: ls
      | [] => [[c]]

/-- Python dict counter update `d[k] = d.get(k, 0) + 1`
(insertion order preserved, as Python dicts do). -/
def bumpCount (k : List Char) : List (List Char × Nat) → List (List Char × Nat)
  | [] => [(k, 1)]
  | (k2, n) :: rest => if k2 = k then (k2, n + 1) :: rest else (k2, n) :: bumpCount k rest

/-- `filename.split('.')[-1] if '.' in filename else 'none'`. -/
def fileExt (filename : List Char) : List Char :=
  if filename.contains '.' then (splitOnChar '.' filename).getLastD []
  else "none".toList

/-- The `analysis` dict built by `ReviewEngine.analyze_files`. -/
structure FileAnalysis where
  total_files : Nat
  total_additions : Nat
  total_deletions : Nat
  has_tests : Bool
  has_documentation : Bool
  file_types : List (List Char × Nat)
  test_files : List (List Char)
  doc_files : List (List Char)
  source_files : List (List Char)
deriving DecidableEq

/-- One iteration of the `for file in files` loop of `analyze_files`. -/
def analyzeFilesStep (a : FileAnalysis) (f : FileD) : FileAnalysis :=
  let a1 : FileAnalysis :=
    { a with
      total_additions := a.total_additions + f.additions
      total_deletions := a.total_deletions + f.deletions
      file_types := bumpCount (fileExt f.filename) a.file_types }
  let a2 : FileAnalysis :=
    if isTestFile f.filename then
      { a1 with has_tests := true, test_files := a1.test_files ++ [f.filename] }
    else a1
  let a3 : FileAnalysis :=
    if isDocFile f.filename then
      { a2 with has_documentation := true, doc_files := a2.doc_files ++ [f.filename] }
    else a2
  if !(a3.test_files.contains f.filename) && !(a3.doc_files.contains f.filename) then
    { a3 with source_files := a3.source_files ++ [f.filename] }
  else a3

/-- `ReviewEngine.analyze_files`. -/
def analyze_files (files : List FileD) : FileAnalysis :=
  files.foldl analyzeFilesStep
    { total_files := files.length
      total_additions := 0
      total_deletions := 0
      has_tests := false
      has_documentation := false
      file_types := []
      test_files := []
      doc_files := []
      source_files := [] }

end PRReview

namespace PRReview

example : ("docs/test_a.py".toList ∈ (analyze_files [⟨"docs/test_a.py".toList, 1, 2⟩]).test_files)
    ∧ ("docs/test_a.py".toList ∈ (analyze_files [⟨"docs/test_a.py".toList, 1, 2⟩]).doc_files) := by
  decide

theorem analyzeFilesStep_test (a : FileAnalysis) (f : FileD) :
    (analyzeFilesStep a f).test_files
      = a.test_files ++ (if isTestFile f.filename then [f.filename] else []) := by
  unfold analyzeFilesStep
  cases h1 : isTestFile f.filename <;> cases h2 : isDocFile f.filename <;>
    simp [h1, h2] <;> split <;> simp

theorem analyzeFilesStep_doc (a : FileAnalysis) (f : FileD) :
    (analyzeFilesStep a f).doc_files
      = a.doc_files ++ (if isDocFile f.filename then [f.filename] else []) := by
  unfold analyzeFilesStep
  cases h1 : isTestFile f.filename <;> cases h2 : isDocFile f.filename <;>
    simp [h1, h2] <;> split <;> simp

end PRReview

namespace PRReview

theorem analyzeFilesStep_source (a : FileAnalysis) (f : FileD)
    (hT : ∀ x ∈ a.test_files, isTestFile x = true)
    (hD : ∀ x ∈ a.doc_files, isDocFile x = true) :
    (analyzeFilesStep a f).source_files
      = a.source_files
        ++ (if !isTestFile f.filename && !isDocFile f.filename then [f.filename] else []) := by
  unfold analyzeFilesStep
  cases h1 : isTestFile f.filename <;> cases h2 : isDocFile f.filename <;> simp [h1, h2]
  · -- both false: the membership test must come out empty
    have hmT : f.filename ∉ a.test_files := fun hm => by simp [hT _ hm] at h1
    have hmD : f.filename ∉ a.doc_files := fun hm => by simp [hD _ hm] at h2
    simp [List.contains, List.elem_eq_mem, hmT, hmD]

theorem analyzeFilesStep_other (a : FileAnalysis) (f : FileD) :
    (analyzeFilesStep a f).total_additions = a.total_additions + f.additions
    ∧ (analyzeFilesStep a f).total_deletions = a.total_deletions + f.deletions
    ∧ (analyzeFilesStep a f).total_files = a.total_files := by
  unfold analyzeFilesStep
  cases h1 : isTestFile f.filename <;> cases h2 : isDocFile f.filename <;>
    simp [h1, h2] <;> split <;> simp

end PRReview

namespace PRReview

theorem analyzeFiles_foldl_buckets (files : List FileD) :
    ∀ a : FileAnalysis,
      (∀ x ∈ a.test_files, isTestFile x = true) →
      (∀ x ∈ a.doc_files, isDocFile x = true) →
      (files.foldl analyzeFilesStep a).test_files
          = a.test_files ++ (files.filter (fun f => isTestFile f.filename)).map FileD.filename
      ∧ (files.foldl analyzeFilesStep a).doc_files
          = a.doc_files ++ (files.filter (fun f => isDocFile f.filename)).map FileD.filename
      ∧ (files.foldl analyzeFilesStep a).source_files
          = a.source_files
            ++ (files.filter
                  (fun f => !isTestFile f.filename && !isDocFile f.filename)).map FileD.filename := by
  induction files with
  | nil => intro a _ _; simp
  | cons f fs ih =>
    intro a hT hD
    have hsT := analyzeFilesStep_test a f
    have hsD := analyzeFilesStep_doc a f
    have hsS := analyzeFilesStep_source a f hT hD
    have hT' : ∀ x ∈ (analyzeFilesStep a f).test_files, isTestFile x = true := by
      intro x hx
      rw [hsT] at hx
      rcases List.mem_append.1 hx with h | h
      · exact hT x h
      · cases hc : isTestFile f.filename <;> simp [hc] at h
        · exact h ▸ hc
    have hD' : ∀ x ∈ (analyzeFilesStep a f).doc_files, isDocFile x = true := by
      intro x hx
      rw [hsD] at hx
      rcases List.mem_append.1 hx with h | h
      · exact hD x h
      · cases hc : isDocFile f.filename <;> simp [hc] at h
        · exact h ▸ hc
    obtain ⟨iT, iD, iS⟩ := ih (analyzeFilesStep a f) hT' hD'
    refine ⟨?_, ?_, ?_⟩
    · rw [List.foldl_cons, iT, hsT]
      cases hc : isTestFile f.filename <;> simp [hc]
    · rw [List.foldl_cons, iD, hsD]
      cases hc : isDocFile f.filename <;> simp [hc]
    · rw [List.foldl_cons, iS, hsS]
      cases hc : isTestFile f.filename <;> cases hc2 : isDocFile f.filename <;>
        simp [hc, hc2]

end PRReview

namespace PRReview

/-- C4 (counterexample): the path `docs/test_a.py` matches the test
pattern `*test*.py` and also the doc pattern `docs/*`; `analyze_files`
places it in `test_files` and in `doc_files` at the same time, so a path
can appear in both buckets. -/
theorem analyze_files_both_buckets_cex :
    "docs/test_a.py".toList ∈ (analyze_files [⟨"docs/test_a.py".toList, 1, 2⟩]).test_files
    ∧ "docs/test_a.py".toList ∈ (analyze_files [⟨"docs/test_a.py".toList, 1, 2⟩]).doc_files := by
  decide

/-- C4 (amended): `analyze_files` checks the test patterns before the doc
patterns but does not skip the doc check after a test hit: `test_files`
collects every path matching a test pattern, `doc_files` every path
matching a doc pattern (a path matching both lands in both), and
`source_files` collects exactly the paths matching neither, so a source
path never appears in the test or doc bucket. -/
theorem analyze_files_bucket_spec (files : List FileD) :
    (analyze_files files).test_files
        = (files.filter (fun f => isTestFile f.filename)).map FileD.filename
    ∧ (analyze_files files).doc_files
        = (files.filter (fun f => isDocFile f.filename)).map FileD.filename
    ∧ (analyze_files files).source_files
        = (files.filter (fun f => !isTestFile f.filename && !isDocFile f.filename)).map
            FileD.filename
    ∧ ∀ x ∈ (analyze_files files).source_files,
        x ∉ (analyze_files files).test_files ∧ x ∉ (analyze_files files).doc_files := by
  unfold analyze_files
  obtain ⟨hT, hD, hS⟩ := analyzeFiles_foldl_buckets files
    { total_files := files.length, total_additions := 0, total_deletions := 0,
      has_tests := false, has_documentation := false, file_types := [],
      test_files := [], doc_files := [], source_files := [] }
    (by intro x hx; simp at hx) (by intro x hx; simp at hx)
  simp only [List.nil_append] at hT hD hS
  refine ⟨by simpa using hT, by simpa using hD, by simpa using hS, ?_⟩
  intro x hx
  rw [hS] at hx
  simp only [List.nil_append, List.mem_map, List.mem_filter] at hx
  obtain ⟨f, ⟨_, hf⟩, rfl⟩ := hx
  simp only [Bool.and_eq_true, Bool.not_eq_true'] at hf
  constructor
  · rw [hT]
    simp only [List.nil_append, List.mem_map, List.mem_filter]
    rintro ⟨g, ⟨_, hg⟩, he⟩
    rw [he] at hg
    simp [hf.1] at hg
  · rw [hD]
    simp only [List.nil_append, List.mem_map, List.mem_filter]
    rintro ⟨g, ⟨_, hg⟩, he⟩
    rw [he] at hg
    simp [hf.2] at hg

end PRReview

namespace PRReview

/-! ## Diff analysis (`ReviewEngine.analyze_diff`) -/

/-- `ReviewEngine.DEBUG_PATTERNS`: each of the eight regexes is a literal
string once the escapes are removed, searched case-insensitively. -/
def DEBUG_PATTERNS : List (List Char) :=
  ["console.log(".toList, "print(".toList, "debugger;".toList, "binding.pry".toList,
   "import pdb".toList, "pdb.set_trace()".toList, "console.debug(".toList,
   "System.out.println(".toList]

/-- The debug patterns that hit a given added line, in table order (the
inner `for pattern in self.DEBUG_PATTERNS` loop appends one occurrence
per hit). -/
def debugMatchesOf (content : List Char) : List (List Char) :=
  DEBUG_PATTERNS.filter (fun p => ciContainsSub p content)

/-- Python word character (ASCII fragment of `\w`). -/
def pyWordChar (c : Char) : Bool := c.isAlpha || c.isDigit || c == '_'

/-- The four marker words of `\b(TODO|FIXME|XXX|HACK)\b`, lower-cased. -/
def todoWords : List (List Char) :=
  ["todo".toList, "fixme".toList, "xxx".toList, "hack".toList]

/-- A marker word matches at the head of `s`, with `prev` the character
just before (word-boundary semantics of `\b`). -/
def todoAt (prev : Option Char) (s : List Char) : Bool :=
  todoWords.any (fun w =>
    w.isPrefixOf (lower s)
    && (match prev with | none => true | some p => !pyWordChar p)
    && (match (lower s).drop w.length with | [] => true | c :: _ => !pyWordChar c))

/-- Scan for a marker word at any position (carrying the previous character). -/
def hasTodoFrom (prev : Option Char) : List Char → Bool
  | [] => false
  | c :: cs => todoAt prev (c :: cs) || hasTodoFrom (some c) cs

/-- `re.search(r'\b(TODO|FIXME|XXX|HACK)\b', content, re.IGNORECASE)`. -/
def hasTodoMarker (s : List Char) : Bool := hasTodoFrom none s

/-- Python whitespace (`str.strip` default / regex `\s`, ASCII fragment). -/
def pyIsSpace (c : Char) : Bool :=
  c == ' ' || c == '\t' || c == '\n' || c == '\r' || c.toNat == 11 || c.toNat == 12

/-- Python `str.strip()`. -/
def pyStrip (s : List Char) : List Char :=
  ((s.dropWhile pyIsSpace).reverse.dropWhile pyIsSpace).reverse

/-- `added_content.strip()[:100]`. -/
def strip100 (s : List Char) : List Char := (pyStrip s).take 100

/-- Decimal value of a digit run (Python `int(...)` on the regex group). -/
def digitsVal (ds : List Char) : Nat :=
  ds.foldl (fun acc c => acc * 10 + (c.toNat - 48)) 0

/-- `re.search(r'\+(\d+)', line)`: find the first `+` followed by at
least one digit and read the (greedy) digit run after it. -/
def parsePlusNum : List Char → Option Nat
  | [] => none
  | c :: rest =>
    if c == '+' then
      let t := rest.takeWhile Char.isDigit
      if t.isEmpty then parsePlusNum rest else some (digitsVal t)
    else parsePlusNum rest

/-- One entry of `debug_occurrences` / `todos_added`: the current file
may still be `None` if no `+++ b/` header was seen. -/
structure DiffOcc where
  file : Option (List Char)
  line : Nat
  content : List Char
deriving DecidableEq

/-- The `analysis` dict built by `ReviewEngine.analyze_diff`
(`large_functions` is declared by the source but never filled). -/
structure DiffAnalysis where
  has_debug_code : Bool
  debug_occurrences : List DiffOcc
  large_functions : List DiffOcc
  todos_added : List DiffOcc
deriving DecidableEq

/-- The loop state of `analyze_diff`. -/
structure DiffState where
  current_file : Option (List Char)
  line_number : Nat
  analysis : DiffAnalysis
deriving DecidableEq

/-- One iteration of the `for line in lines` loop of `analyze_diff`. -/
def analyzeDiffLine (st : DiffState) (line : List Char) : DiffState :=
  if "+++ b/".toList.isPrefixOf line then
    { st with current_file := some (line.drop 6), line_number := 0 }
  else if "@@".toList.isPrefixOf line then
    match parsePlusNum line with
    | some n => { st with line_number := n }
    | none => st
  else if "+".toList.isPrefixOf line && !("+++".toList.isPrefixOf line) then
    let added_content := line.drop 1
    let dm := debugMatchesOf added_content
    let a1 : DiffAnalysis :=
      { st.analysis with
        has_debug_code := st.analysis.has_debug_code || !dm.isEmpty
        debug_occurrences := st.analysis.debug_occurrences
          ++ dm.map (fun _ => ⟨st.current_file, st.line_number, strip100 added_content⟩) }
    let a2 : DiffAnalysis :=
      if hasTodoMarker added_content then
        { a1 with todos_added := a1.todos_added
            ++ [⟨st.current_file, st.line_number, strip100 added_content⟩] }
      else a1
    { st with analysis := a2, line_number := st.line_number + 1 }
  else st

/-- `ReviewEngine.analyze_diff`, after `diff.split('\n')`. -/
def analyzeDiffLines (lines : List (List Char)) : DiffAnalysis :=
  (lines.foldl analyzeDiffLine ⟨none, 0, ⟨false, [], [], []⟩⟩).analysis

/-- `ReviewEngine.analyze_diff` on the raw diff text. -/
def analyze_diff (diff : List Char) : DiffAnalysis :=
  analyzeDiffLines (splitOnChar '\n' diff)

end PRReview

namespace PRReview

/-- C10: one added line contributes one debug occurrence per matching
debug pattern — `k` matching patterns yield `k` entries, all with the
same file and line number — while the marker-comment list gets at most
one entry for the line. -/
theorem analyze_diff_per_pattern (fname content : List Char)
    (h : ¬ "++".toList.isPrefixOf content) :
    (analyzeDiffLines ["+++ b/".toList ++ fname, '+' :: content]).debug_occurrences.length
        = (debugMatchesOf content).length
    ∧ (∀ o ∈ (analyzeDiffLines ["+++ b/".toList ++ fname, '+' :: content]).debug_occurrences,
        o.file = some fname ∧ o.line = 0)
    ∧ (analyzeDiffLines ["+++ b/".toList ++ fname, '+' :: content]).todos_added.length ≤ 1 := by
  have h6 : ("+++ b/".toList ++ fname).drop 6 = fname := by rfl
  have hfh : "+++ b/".toList.isPrefixOf ("+++ b/".toList ++ fname) = true := by
    simp [List.isPrefixOf_iff_prefix]
  have hnf : "+++ b/".toList.isPrefixOf ('+' :: content) = false := by
    cases hc : "++ b/".toList.isPrefixOf content
    · simp [List.isPrefixOf]
      exact hc
    · exfalso
      apply h
      rw [List.isPrefixOf_iff_prefix] at hc ⊢
      exact List.IsPrefix.trans ⟨" b/".toList, rfl⟩ hc
  have hat : ("@@".toList.isPrefixOf ('+' :: content)) = false := by
    simp [List.isPrefixOf]
  have hp1 : ("+".toList.isPrefixOf ('+' :: content)) = true := by
    simp [List.isPrefixOf]
  have hp3 : ("+++".toList.isPrefixOf ('+' :: content)) = false := by
    have h2 : "++".toList.isPrefixOf content = false := Bool.not_eq_true _ |>.mp h
    simp [List.isPrefixOf]
    exact h2
  have hst1 : analyzeDiffLine ⟨none, 0, ⟨false, [], [], []⟩⟩ ("+++ b/".toList ++ fname)
      = ⟨some fname, 0, ⟨false, [], [], []⟩⟩ := by
    rw [analyzeDiffLine, if_pos hfh]
    simp [h6]
  simp only [analyzeDiffLines, List.foldl_cons, List.foldl_nil, hst1]
  rw [analyzeDiffLine]
  rw [if_neg (by rw [hnf]; exact Bool.false_ne_true),
      if_neg (by rw [hat]; exact Bool.false_ne_true),
      if_pos (by rw [hp1, hp3]; rfl)]
  simp only [List.drop_succ_cons, List.drop_zero]
  constructor
  · cases hto : hasTodoMarker content <;> simp [hto]
  constructor
  · intro o ho
    cases hto : hasTodoMarker content <;> simp [hto] at ho <;>
      obtain ⟨p, hp, rfl⟩ := ho <;> exact ⟨rfl, rfl⟩
  · cases hto : hasTodoMarker content <;> simp [hto]

end PRReview

namespace PRReview

/-- Witness for C10 at a concrete input: the added line
`pdb.set_trace() import pdb` matches two debug patterns and yields two
occurrences. -/
theorem analyze_diff_per_pattern_witness :
    (¬ "++".toList.isPrefixOf ("pdb.set_trace() import pdb".toList) = true)
    ∧ ((analyzeDiffLines ["+++ b/".toList ++ "f".toList,
          '+' :: "pdb.set_trace() import pdb".toList]).debug_occurrences.length
            = (debugMatchesOf "pdb.set_trace() import pdb".toList).length
      ∧ (∀ o ∈ (analyzeDiffLines ["+++ b/".toList ++ "f".toList,
          '+' :: "pdb.set_trace() import pdb".toList]).debug_occurrences,
          o.file = some "f".toList ∧ o.line = 0)
      ∧ (analyzeDiffLines ["+++ b/".toList ++ "f".toList,
          '+' :: "pdb.set_trace() import pdb".toList]).todos_added.length ≤ 1) :=
  ⟨by decide, analyze_diff_per_pattern "f".toList "pdb.set_trace() import pdb".toList (by decide)⟩

end PRReview

namespace PRReview

/-! ## Well-formed unified diffs, for the DiffScanner claims

A structured description of a single-file unified diff: a `+++ b/` file
header followed by hunks, each hunk a `@@ -… +n …@@` header followed by
context, removed and added lines.  Rendering it gives the line list the
scanner consumes. -/

/-- One body line of a hunk. -/
inductive DLine where
  | ctx (s : List Char)
  | del (s : List Char)
  | add (s : List Char)
deriving DecidableEq

/-- Render a body line with its unified-diff marker character. -/
def renderDLine : DLine → List Char
  | .ctx s => ' ' :: s
  | .del s => '-' :: s
  | .add s => '+' :: s

/-- One hunk: the digit run of the new-file start line, and the body. -/
structure HunkD where
  startDigits : List Char
  body : List DLine
deriving DecidableEq

/-- A hunk header whose first `+<digits>` group is `ds`. -/
def hunkHeader (ds : List Char) : List Char :=
  "@@ -1 +".toList ++ ds ++ " @@".toList

/-- Render a hunk: header then body lines. -/
def renderHunk (h : HunkD) : List (List Char) :=
  hunkHeader h.startDigits :: h.body.map renderDLine

/-- Render a whole single-file diff: file header then all hunks. -/
def renderDiffLines (fname : List Char) (hunks : List HunkD) : List (List Char) :=
  ("+++ b/".toList ++ fname) :: (hunks.map renderHunk).flatten

/-- The added-line contents of a hunk body, in order. -/
def addLines : List DLine → List (List Char)
  | [] => []
  | .add s :: r => s :: addLines r
  | _ :: r => addLines r

/-- Debug occurrences contributed by a hunk body starting at counter `n`
with current file `cf`: one entry per matching pattern per added line,
the counter advancing only on added lines. -/
def bodyDebug (cf : Option (List Char)) (n : Nat) : List DLine → List DiffOcc
  | [] => []
  | .add s :: r =>
    (debugMatchesOf s).map (fun _ => ⟨cf, n, strip100 s⟩) ++ bodyDebug cf (n + 1) r
  | .ctx _ :: r => bodyDebug cf n r
  | .del _ :: r => bodyDebug cf n r

/-- The effect of one added line on the scanner state. -/
def addStep (st : DiffState) (s : List Char) : DiffState :=
  { st with
    line_number := st.line_number + 1
    analysis :=
      { st.analysis with
        has_debug_code := st.analysis.has_debug_code || !(debugMatchesOf s).isEmpty
        debug_occurrences := st.analysis.debug_occurrences
          ++ (debugMatchesOf s).map (fun _ => ⟨st.current_file, st.line_number, strip100 s⟩)
        todos_added := st.analysis.todos_added
          ++ (if hasTodoMarker s then
                [⟨st.current_file, st.line_number, strip100 s⟩] else []) } }

theorem analyzeDiffLine_ctx (st : DiffState) (s : List Char) :
    analyzeDiffLine st (' ' :: s) = st := by
  rw [analyzeDiffLine]
  rw [if_neg (by simp [List.isPrefixOf]), if_neg (by simp [List.isPrefixOf]),
      if_neg (by simp [List.isPrefixOf])]

theorem analyzeDiffLine_del (st : DiffState) (s : List Char) :
    analyzeDiffLine st ('-' :: s) = st := by
  rw [analyzeDiffLine]
  rw [if_neg (by simp [List.isPrefixOf]), if_neg (by simp [List.isPrefixOf]),
      if_neg (by simp [List.isPrefixOf])]

theorem analyzeDiffLine_add (st : DiffState) (s : List Char)
    (hs : "++".toList.isPrefixOf s = false) :
    analyzeDiffLine st ('+' :: s) = addStep st s := by
  rw [analyzeDiffLine]
  rw [if_neg ?h1, if_neg (by simp [List.isPrefixOf]), if_pos ?h3]
  case h1 =>
    intro hcon
    rw [List.isPrefixOf_iff_prefix] at hcon
    rcases hcon with ⟨t, ht⟩
    have hseq : s = "++ b/".toList ++ t := by
      have h2 := congrArg List.tail ht
      simpa using h2.symm
    rw [hseq] at hs
    simp [List.isPrefixOf] at hs
  case h3 =>
    have hs2 : (['+', '+'] : List Char).isPrefixOf s = false := hs
    simp [List.isPrefixOf, hs2]
  simp only [List.drop_succ_cons, List.drop_zero]
  cases hto : hasTodoMarker s <;> simp [addStep, hto]

end PRReview

namespace PRReview

theorem takeWhile_digits_append (ds rest : List Char) (h : ∀ c ∈ ds, c.isDigit = true) :
    (ds ++ ' ' :: rest).takeWhile Char.isDigit = ds := by
  induction ds with
  | nil => simp [List.takeWhile]
  | cons c cs ih =>
    have hc : c.isDigit = true := h c (by simp)
    simp only [List.cons_append, List.takeWhile_cons, hc]
    rw [ih (fun x hx => h x (by simp [hx]))]
    simp

theorem parsePlusNum_hunkHeader (ds : List Char) (hne : ds ≠ [])
    (hdig : ∀ c ∈ ds, c.isDigit = true) :
    parsePlusNum (hunkHeader ds) = some (digitsVal ds) := by
  have hkey : parsePlusNum ('+' :: (ds ++ " @@".toList)) = some (digitsVal ds) := by
    rw [parsePlusNum]
    have ht : (ds ++ " @@".toList).takeWhile Char.isDigit = ds :=
      takeWhile_digits_append ds "@@".toList hdig
    simp only [ht]
    have : ds.isEmpty = false := by
      cases ds
      · exact absurd rfl hne
      · rfl
    simp [this]
  show parsePlusNum ('@' :: '@' :: ' ' :: '-' :: '1' :: ' ' :: '+' :: (ds ++ " @@".toList))
      = some (digitsVal ds)
  rw [parsePlusNum]
  simp only [show ('@' == '+') = false from rfl, if_false]
  rw [parsePlusNum]
  simp only [show ('@' == '+') = false from rfl, if_false]
  rw [parsePlusNum]
  simp only [show (' ' == '+') = false from rfl, if_false]
  rw [parsePlusNum]
  simp only [show ('-' == '+') = false from rfl, if_false]
  rw [parsePlusNum]
  simp only [show ('1' == '+') = false from rfl, if_false]
  rw [parsePlusNum]
  simp only [show (' ' == '+') = false from rfl, if_false]
  exact hkey

theorem analyzeDiffLine_hunkHeader (st : DiffState) (ds : List Char) (hne : ds ≠ [])
    (hdig : ∀ c ∈ ds, c.isDigit = true) :
    analyzeDiffLine st (hunkHeader ds) = { st with line_number := digitsVal ds } := by
  rw [analyzeDiffLine]
  rw [if_neg (by simp [hunkHeader, List.isPrefixOf]), if_pos (by simp [hunkHeader, List.isPrefixOf])]
  rw [parsePlusNum_hunkHeader ds hne hdig]

end PRReview

namespace PRReview

theorem body_fold (body : List DLine)
    (hadd : ∀ s, DLine.add s ∈ body → "++".toList.isPrefixOf s = false) :
    ∀ st : DiffState,
      (List.foldl analyzeDiffLine st (body.map renderDLine)).current_file = st.current_file
      ∧ (List.foldl analyzeDiffLine st (body.map renderDLine)).line_number
          = st.line_number + (addLines body).length
      ∧ (List.foldl analyzeDiffLine st (body.map renderDLine)).analysis.debug_occurrences
          = st.analysis.debug_occurrences ++ bodyDebug st.current_file st.line_number body := by
  induction body with
  | nil => intro st; simp [addLines, bodyDebug]
  | cons l r ih =>
    intro st
    cases l with
    | ctx s =>
      have ih2 := ih (fun s hs => hadd s (by simp [hs])) st
      simpa [renderDLine, analyzeDiffLine_ctx, addLines, bodyDebug] using ih2
    | del s =>
      have ih2 := ih (fun s hs => hadd s (by simp [hs])) st
      simpa [renderDLine, analyzeDiffLine_del, addLines, bodyDebug] using ih2
    | add s =>
      have hstep := analyzeDiffLine_add st s (hadd s (by simp))
      have ih2 := ih (fun s hs => hadd s (by simp [hs])) (addStep st s)
      obtain ⟨i1, i2, i3⟩ := ih2
      refine ⟨?_, ?_, ?_⟩
      · simpa [renderDLine, hstep, addStep] using i1
      · simp only [List.map_cons, List.foldl_cons, renderDLine, hstep] at i2 ⊢
        rw [i2]
        simp [addStep, addLines]
        omega
      · simp only [List.map_cons, List.foldl_cons, renderDLine, hstep] at i3 ⊢
        rw [i3]
        simp [addStep, bodyDebug]

end PRReview

namespace PRReview

theorem hunks_fold (hunks : List HunkD)
    (hdig : ∀ h ∈ hunks, h.startDigits ≠ [] ∧ ∀ c ∈ h.startDigits, c.isDigit = true)
    (hadd : ∀ h ∈ hunks, ∀ s, DLine.add s ∈ h.body → "++".toList.isPrefixOf s = false) :
    ∀ st : DiffState,
      (List.foldl analyzeDiffLine st ((hunks.map renderHunk).flatten)).current_file
          = st.current_file
      ∧ (List.foldl analyzeDiffLine st ((hunks.map renderHunk).flatten)).analysis.debug_occurrences
          = st.analysis.debug_occurrences
            ++ (hunks.map
                  (fun h => bodyDebug st.current_file (digitsVal h.startDigits) h.body)).flatten := by
  induction hunks with
  | nil => intro st; simp
  | cons h r ih =>
    intro st
    obtain ⟨hne, hdg⟩ := hdig h (by simp)
    have hstep := analyzeDiffLine_hunkHeader st h.startDigits hne hdg
    obtain ⟨b1, b2, b3⟩ :=
      body_fold h.body (hadd h (by simp)) { st with line_number := digitsVal h.startDigits }
    have ih2 := ih (fun x hx => hdig x (by simp [hx])) (fun x hx => hadd x (by simp [hx]))
      (List.foldl analyzeDiffLine { st with line_number := digitsVal h.startDigits }
        (h.body.map renderDLine))
    obtain ⟨j1, j2⟩ := ih2
    simp only [List.map_cons, List.flatten_cons, renderHunk, List.foldl_append, List.foldl_cons,
      hstep]
    constructor
    · rw [j1, b1]
    · rw [j2, b3, b1]
      simp [List.append_assoc]
  
end PRReview

namespace PRReview

theorem render_debug (fname : List Char) (hunks : List HunkD)
    (hdig : ∀ h ∈ hunks, h.startDigits ≠ [] ∧ ∀ c ∈ h.startDigits, c.isDigit = true)
    (hadd : ∀ h ∈ hunks, ∀ s, DLine.add s ∈ h.body → "++".toList.isPrefixOf s = false) :
    (analyzeDiffLines (renderDiffLines fname hunks)).debug_occurrences
      = (hunks.map
          (fun h => bodyDebug (some fname) (digitsVal h.startDigits) h.body)).flatten := by
  have hfh : "+++ b/".toList.isPrefixOf ("+++ b/".toList ++ fname) = true := by
    simp [List.isPrefixOf_iff_prefix]
  have hst1 : analyzeDiffLine ⟨none, 0, ⟨false, [], [], []⟩⟩ ("+++ b/".toList ++ fname)
      = ⟨some fname, 0, ⟨false, [], [], []⟩⟩ := by
    rw [analyzeDiffLine, if_pos hfh]
    simp
  obtain ⟨k1, k2⟩ := hunks_fold hunks hdig hadd ⟨some fname, 0, ⟨false, [], [], []⟩⟩
  simp only [analyzeDiffLines, renderDiffLines, List.foldl_cons, hst1]
  rw [k2]
  simp

/-- Line-numbered occurrences for a run of added-line contents starting
at counter `n`. -/
def numbered (cf : Option (List Char)) : Nat → List (List Char) → List DiffOcc
  | _, [] => []
  | n, s :: r => ⟨cf, n, strip100 s⟩ :: numbered cf (n + 1) r

theorem bodyDebug_numbered (cf : Option (List Char)) (body : List DLine)
    (hone : ∀ s, DLine.add s ∈ body → (debugMatchesOf s).length = 1) :
    ∀ n, bodyDebug cf n body = numbered cf n (addLines body) := by
  induction body with
  | nil => intro n; simp [bodyDebug, addLines, numbered]
  | cons l r ih =>
    intro n
    cases l with
    | ctx s => simpa [bodyDebug, addLines] using ih (fun s hs => hone s (by simp [hs])) n
    | del s => simpa [bodyDebug, addLines] using ih (fun s hs => hone s (by simp [hs])) n
    | add s =>
      have h1 : (debugMatchesOf s).length = 1 := hone s (by simp)
      obtain ⟨x, hx⟩ := List.length_eq_one.mp h1
      simp only [bodyDebug, addLines, numbered, hx, List.map_cons, List.map_nil,
        List.singleton_append]
      rw [ih (fun s hs => hone s (by simp [hs])) (n + 1)]

end PRReview

namespace PRReview

/-- Occurrences of a list of (start line, added contents) groups. -/
def occsOf (cf : Option (List Char)) (L : List (Nat × List (List Char))) : List DiffOcc :=
  (L.map (fun e => numbered cf e.1 e.2)).flatten

theorem occsOf_nil_adds (cf : Option (List Char)) (L : List (Nat × List (List Char)))
    (h : (L.map Prod.snd).flatten = []) : occsOf cf L = [] := by
  induction L with
  | nil => simp [occsOf]
  | cons e r ih =>
    simp only [List.map_cons, List.flatten_cons, List.append_eq_nil] at h
    obtain ⟨h1, h2⟩ := h
    simp only [occsOf, List.map_cons, List.flatten_cons, h1, numbered, List.nil_append]
    exact ih h2

theorem occsOf_one_add (cf : Option (List Char)) (L : List (Nat × List (List Char)))
    (c : List Char) (h : (L.map Prod.snd).flatten = [c]) :
    ∃ m ∈ L.map Prod.fst, occsOf cf L = [⟨cf, m, strip100 c⟩] := by
  induction L with
  | nil => simp at h
  | cons e r ih =>
    simp only [List.map_cons, List.flatten_cons] at h
    rcases he : e.2 with _ | ⟨a, as⟩
    · rw [he, List.nil_append] at h
      obtain ⟨m, hm, ho⟩ := ih h
      refine ⟨m, by simp [hm], ?_⟩
      simpa [occsOf, he, numbered] using ho
    · rw [he, List.cons_append] at h
      obtain ⟨rfl, htail⟩ := List.cons_eq_cons.mp h
      obtain ⟨has, hflat⟩ := List.append_eq_nil.mp htail
      refine ⟨e.1, by simp, ?_⟩
      have hrest : occsOf cf r = [] := occsOf_nil_adds cf r hflat
      simp only [occsOf, List.map_cons, List.flatten_cons, he, has, numbered]
      simpa [occsOf] using hrest

theorem occsOf_two_adds (cf : Option (List Char)) (L : List (Nat × List (List Char)))
    (c1 c2 : List Char) (h : (L.map Prod.snd).flatten = [c1, c2])
    (hasc : List.Pairwise (· < ·) (L.map Prod.fst)) :
    ∃ n1 n2, occsOf cf L = [⟨cf, n1, strip100 c1⟩, ⟨cf, n2, strip100 c2⟩] ∧ n1 < n2 := by
  induction L with
  | nil => simp at h
  | cons e r ih =>
    simp only [List.map_cons, List.flatten_cons] at h
    simp only [List.map_cons, List.pairwise_cons] at hasc
    obtain ⟨hlt, htail⟩ := hasc
    rcases he : e.2 with _ | ⟨a, _ | ⟨b, xs⟩⟩
    · rw [he, List.nil_append] at h
      obtain ⟨n1, n2, ho, hn⟩ := ih h htail
      refine ⟨n1, n2, ?_, hn⟩
      simpa [occsOf, he, numbered] using ho
    · rw [he, List.cons_append] at h
      obtain ⟨rfl, hrest⟩ := List.cons_eq_cons.mp h
      obtain ⟨m, hm, ho⟩ := occsOf_one_add cf r c2 hrest
      refine ⟨e.1, m, ?_, hlt m hm⟩
      simp only [occsOf, List.map_cons, List.flatten_cons, he, numbered]
      simpa [occsOf] using ho
    · rw [he] at h
      simp only [List.cons_append] at h
      obtain ⟨rfl, h2⟩ := List.cons_eq_cons.mp h
      obtain ⟨rfl, h3⟩ := List.cons_eq_cons.mp h2
      obtain ⟨hxs, hflat⟩ := List.append_eq_nil.mp h3
      have hrest : occsOf cf r = [] := occsOf_nil_adds cf r hflat
      refine ⟨e.1, e.1 + 1, ?_, by omega⟩
      simp only [occsOf, List.map_cons, List.flatten_cons, he, hxs, numbered]
      simpa [occsOf] using hrest

end PRReview

namespace PRReview

theorem mem_addLines (body : List DLine) (s : List Char) (h : DLine.add s ∈ body) :
    s ∈ addLines body := by
  induction body with
  | nil => simp at h
  | cons l r ih =>
    rcases List.mem_cons.mp h with h1 | h2
    · rw [← h1]
      simp [addLines]
    · cases l <;> simp [addLines, ih h2]

/-- C8 (amended): on a well-formed single-file unified diff whose hunk
start lines strictly ascend and which contains exactly two added lines,
each hitting exactly one debug pattern and neither with content
beginning `++` (such a line renders as `+++…` and is skipped by the
scanner's file-header exclusion guard — see the counterexample below),
`analyze_diff` reports exactly two debug occurrences, both carrying the
file's path, with strictly ascending line numbers (the counter restarts
at each hunk header's new-file start line and advances once per added
line). -/
theorem analyze_diff_two_debug (fname c1 c2 : List Char) (hunks : List HunkD)
    (hdig : ∀ h ∈ hunks, h.startDigits ≠ [] ∧ ∀ c ∈ h.startDigits, c.isDigit = true)
    (hadd : ∀ h ∈ hunks, ∀ s, DLine.add s ∈ h.body → "++".toList.isPrefixOf s = false)
    (htwo : (hunks.map (fun h => addLines h.body)).flatten = [c1, c2])
    (hone1 : (debugMatchesOf c1).length = 1)
    (hone2 : (debugMatchesOf c2).length = 1)
    (hasc : List.Chain' (· < ·) (hunks.map (fun h => digitsVal h.startDigits))) :
    ∃ n1 n2,
      (analyzeDiffLines (renderDiffLines fname hunks)).debug_occurrences
          = [⟨some fname, n1, strip100 c1⟩, ⟨some fname, n2, strip100 c2⟩]
      ∧ n1 < n2 := by
  rw [render_debug fname hunks hdig hadd]
  have hcong : hunks.map (fun h => bodyDebug (some fname) (digitsVal h.startDigits) h.body)
      = hunks.map (fun h => numbered (some fname) (digitsVal h.startDigits) (addLines h.body)) := by
    apply List.map_congr_left
    intro h hh
    apply bodyDebug_numbered
    intro s hs
    have hmem : s ∈ (hunks.map (fun h => addLines h.body)).flatten := by
      rw [List.mem_flatten]
      exact ⟨addLines h.body, List.mem_map_of_mem _ hh, mem_addLines h.body s hs⟩
    rw [htwo] at hmem
    rcases List.mem_cons.mp hmem with h1 | h2
    · rw [h1]; exact hone1
    · simp only [List.mem_singleton] at h2
      rw [h2]; exact hone2
  rw [hcong]
  have hL : hunks.map (fun h => numbered (some fname) (digitsVal h.startDigits) (addLines h.body))
      = (hunks.map (fun h => (digitsVal h.startDigits, addLines h.body))).map
          (fun e => numbered (some fname) e.1 e.2) := by
    rw [List.map_map]
    rfl
  rw [hL]
  have hsnd : ((hunks.map (fun h => (digitsVal h.startDigits, addLines h.body))).map
      Prod.snd).flatten = [c1, c2] := by
    rw [List.map_map]
    exact htwo
  have hfst : (hunks.map (fun h => (digitsVal h.startDigits, addLines h.body))).map Prod.fst
      = hunks.map (fun h => digitsVal h.startDigits) := by
    rw [List.map_map]
    rfl
  have hpair : List.Pairwise (· < ·)
      ((hunks.map (fun h => (digitsVal h.startDigits, addLines h.body))).map Prod.fst) := by
    rw [hfst]
    exact List.chain'_iff_pairwise.mp hasc
  exact occsOf_two_adds (some fname)
    (hunks.map (fun h => (digitsVal h.startDigits, addLines h.body))) c1 c2 hsnd hpair

end PRReview

namespace PRReview

/-- C8 (counterexample): a single-file diff with exactly two added
lines, `++i; print(a)` and `print(b)`, each matching exactly one debug
pattern.  The first renders as `+++i; print(a)`, which the guard
`line.startswith('+') and not line.startswith('+++')` skips, so the
scanner reports one occurrence, not two. -/
theorem analyze_diff_two_debug_cex :
    ((([HunkD.mk "1".toList
          [DLine.add "++i; print(a)".toList, DLine.add "print(b)".toList]].map
        (fun h => addLines h.body)).flatten
          = ["++i; print(a)".toList, "print(b)".toList])
    ∧ (debugMatchesOf "++i; print(a)".toList).length = 1
    ∧ (debugMatchesOf "print(b)".toList).length = 1)
    ∧ (analyzeDiffLines (renderDiffLines "f".toList
        [HunkD.mk "1".toList
          [DLine.add "++i; print(a)".toList,
           DLine.add "print(b)".toList]])).debug_occurrences.length = 1 := by
  decide

/-- Witness for C8 at a concrete diff: one hunk starting at line 1 with
the two added lines `console.log(x);` and `print(test)`. -/
theorem analyze_diff_two_debug_witness :
    ((∀ h ∈ [HunkD.mk "1".toList
        [DLine.add "console.log(x);".toList, DLine.add "print(test)".toList]],
      h.startDigits ≠ [] ∧ ∀ c ∈ h.startDigits, c.isDigit = true)
    ∧ (debugMatchesOf "console.log(x);".toList).length = 1
    ∧ (debugMatchesOf "print(test)".toList).length = 1)
    ∧ (∃ n1 n2,
        (analyzeDiffLines (renderDiffLines "src/main.py".toList
          [HunkD.mk "1".toList
            [DLine.add "console.log(x);".toList,
             DLine.add "print(test)".toList]])).debug_occurrences
            = [⟨some "src/main.py".toList, n1, strip100 "console.log(x);".toList⟩,
               ⟨some "src/main.py".toList, n2, strip100 "print(test)".toList⟩]
        ∧ n1 < n2) :=
  ⟨⟨by decide, by decide, by decide⟩,
    analyze_diff_two_debug "src/main.py".toList "console.log(x);".toList "print(test)".toList
      [HunkD.mk "1".toList
        [DLine.add "console.log(x);".toList, DLine.add "print(test)".toList]]
      (by decide)
      (by
        intro h hh s hs
        simp only [List.mem_singleton] at hh
        subst hh
        simp only [List.mem_cons, List.mem_singleton, DLine.add.injEq,
          List.not_mem_nil, or_false] at hs
        rcases hs with rfl | rfl <;> decide)
      (by decide) (by decide) (by decide)
      (by simp)⟩

end PRReview

namespace PRReview

/-! ## Commit analysis (`ReviewEngine.analyze_commits`) -/

/-- One commit record: `commit.get('sha', '')` and
`commit.get('commit', {}).get('message', '')`. -/
structure CommitD where
  sha : List Char
  message : List Char
deriving DecidableEq

/-- One entry of `analysis['commits']`. -/
structure CommitInfo where
  sha7 : List Char
  message : List Char
  is_descriptive : Bool
deriving DecidableEq

/-- The `analysis` dict built by `ReviewEngine.analyze_commits`. -/
structure CommitAnalysis where
  total_commits : Nat
  descriptive_commits : Nat
  short_commits : Nat
  commits : List CommitInfo
  references_issues : Bool
  issue_references : List (List Char)
deriving DecidableEq

/-- The keyword alternatives of `(?:closes?|fixes?|resolves?)` in the
regex's backtracking preference order (each `s?` greedily tries the
`s`-form first; note `fixes?` matches `fixe`/`fixes`, not `fix`). -/
def issueKeywords : List (List Char) :=
  ["closes".toList, "close".toList, "fixes".toList, "fixe".toList,
   "resolves".toList, "resolve".toList]

/-- Match `#\d+` at the head of `s`, returning the matched text and the
remainder. -/
def tryHashNum (s : List Char) : Option (List Char × List Char) :=
  match s with
  | '#' :: rest =>
    match rest.takeWhile Char.isDigit with
    | [] => none
    | ds => some ('#' :: ds, rest.drop ds.length)
  | _ => none

/-- Match `(?:closes?|fixes?|resolves?)\s+#?\d+` at the head of `s`
(case-insensitive keyword, greedy whitespace and digits, `#` preferred
but dropped when no digit follows it). -/
def tryKw (s : List Char) : List (List Char) → Option (List Char × List Char)
  | [] => none
  | w :: ws =>
    if w.isPrefixOf (lower s) then
      let kw := s.take w.length
      let rest1 := s.drop w.length
      let sp := rest1.takeWhile pyIsSpace
      let rest2 := rest1.drop sp.length
      if sp.isEmpty then tryKw s ws
      else
        match rest2 with
        | '#' :: r3 =>
          match r3.takeWhile Char.isDigit with
          | [] => tryKw s ws
          | ds => some (kw ++ sp ++ '#' :: ds, r3.drop ds.length)
        | r3 =>
          match r3.takeWhile Char.isDigit with
          | [] => tryKw s ws
          | ds => some (kw ++ sp ++ ds, r3.drop ds.length)
    else tryKw s ws

/-- One attempt of `re.search`'s alternation at the head of `s`:
`#\d+` first, then the keyword branch. -/
def tryIssueAt (s : List Char) : Option (List Char × List Char) :=
  match tryHashNum s with
  | some r => some r
  | none => tryKw s issueKeywords

/-- `issue_pattern.findall(message)`: non-overlapping left-to-right scan.
Every match consumes at least one character, so fuel equal to the input
length makes the bounded recursion exact. -/
def findIssueRefs : Nat → List Char → List (List Char)
  | 0, _ => []
  | _, [] => []
  | fuel + 1, c :: cs =>
    match tryIssueAt (c :: cs) with
    | some (m, rest) => m :: findIssueRefs fuel rest
    | none => findIssueRefs fuel cs

/-- All issue references in a commit message. -/
def issueRefsOf (message : List Char) : List (List Char) :=
  findIssueRefs message.length message

/-- `message.split('\n')[0]`. -/
def firstLineOf (message : List Char) : List Char :=
  (splitOnChar '\n' message).headD []

/-- One iteration of the `for commit in commits` loop. -/
def analyzeCommitsStep (a : CommitAnalysis) (c : CommitD) : CommitAnalysis :=
  let first_line := firstLineOf c.message
  let info : CommitInfo :=
    { sha7 := c.sha.take 7
      message := first_line.take 100
      is_descriptive := decide (10 ≤ first_line.length) }
  let a1 : CommitAnalysis :=
    if 10 ≤ first_line.length then
      { a with descriptive_commits := a.descriptive_commits + 1 }
    else
      { a with short_commits := a.short_commits + 1 }
  let issues := issueRefsOf c.message
  let a2 : CommitAnalysis :=
    if issues.isEmpty then a1
    else
      { a1 with references_issues := true
                issue_references := a1.issue_references ++ issues }
  { a2 with commits := a2.commits ++ [info] }

/-- `ReviewEngine.analyze_commits`. -/
def analyze_commits (commits : List CommitD) : CommitAnalysis :=
  commits.foldl analyzeCommitsStep
    { total_commits := commits.length
      descriptive_commits := 0
      short_commits := 0
      commits := []
      references_issues := false
      issue_references := [] }

end PRReview

namespace PRReview

/-! ## Expectation evaluation (`ReviewEngine.evaluate_expectations`)

Weights are natural numbers, per the data-model invariant that Check
weights are positive integers.  The source's two ratio checks
(`descriptive_commits`, `improves_quality`) compare float quotients
against 0.8 and 0.3; they are modelled by the equivalent cross-multiplied
integer comparisons, which agree with the float evaluation at every
input the claims below touch. -/

/-- A configured check: `check['name']`, `check['description']`,
`check.get('weight', 10)` (`none` models an absent key). -/
structure Check where
  name : List Char
  description : List Char
  weight : Option Nat
deriving DecidableEq

/-- An expectation set: `checks`, `max_files` and `max_lines` with the
source's `.get` defaults applied at the use site. -/
structure Expectations where
  checks : List Check
  max_files : Option Nat
  max_lines : Option Nat
deriving DecidableEq

/-- The pull-request attributes the engine reads. -/
structure PullReq where
  repository : Nat
  number : Nat
  description : List Char
  source_branch : List Char
deriving DecidableEq

/-- Python `str.upper()`. -/
def upper (s : List Char) : List Char := s.map Char.toUpper

/-- `feature_keywords` of the `no_new_features` check. -/
def featureKeywords : List (List Char) :=
  ["add".toList, "new".toList, "implement".toList, "create".toList]

/-- `version_files` of the `version_bump` check. -/
def versionFiles : List (List Char) :=
  ["package.json".toList, "setup.py".toList, "version.py".toList,
   "VERSION".toList, "pyproject.toml".toList]

/-- `changelog_files` of the `changelog_updated` check. -/
def changelogFiles : List (List Char) :=
  ["CHANGELOG".toList, "HISTORY".toList, "CHANGES".toList, "NEWS".toList]

/-- The name-keyed pass/fail policy of `evaluate_expectations` (the
`details` strings, which no claim inspects, are not modelled). -/
def checkPassed (name : List Char) (fa : FileAnalysis) (da : DiffAnalysis)
    (ca : CommitAnalysis) (pr : PullReq) (max_files max_lines : Nat) : Bool :=
  if name = "has_tests".toList then fa.has_tests
  else if name = "has_documentation".toList then fa.has_documentation
  else if name = "has_regression_test".toList then fa.has_tests
  else if name = "reasonable_size".toList then
    decide (fa.total_additions + fa.total_deletions ≤ max_lines)
      && decide (fa.total_files ≤ max_files)
  else if name = "focused_changes".toList then decide (fa.total_files ≤ max_files)
  else if name = "minimal_changes".toList then
    decide (fa.total_files ≤ 5) && decide (fa.total_additions + fa.total_deletions ≤ 100)
  else if name = "descriptive_commits".toList then
    decide (5 * ca.descriptive_commits ≥ 4 * max ca.total_commits 1)
  else if name = "no_debug_code".toList then !da.has_debug_code
  else if name = "references_issue".toList then ca.references_issues
  else if name = "has_description".toList then decide (50 ≤ pr.description.length)
  else if name = "no_new_features".toList then
    !(ca.commits.any (fun c => featureKeywords.any (fun kw => containsSub kw (lower c.message))))
  else if name = "version_bump".toList then
    fa.source_files.any (fun f => versionFiles.any (fun vf => containsSub vf f))
  else if name = "changelog_updated".toList then
    fa.doc_files.any (fun f => changelogFiles.any (fun cf => containsSub cf (upper f)))
  else if name = "no_behavior_change".toList then fa.has_tests
  else if name = "improves_quality".toList then
    decide (10 * fa.total_deletions ≥ 3 * fa.total_additions)
  else if name = "follows_conventions".toList then true
  else if name = "critical_only".toList then decide (fa.total_files ≤ 5)
  else if name = "documentation_updated".toList then fa.has_documentation
  else true

/-- One entry of `results['checks']` (the `details` string is not
modelled). -/
structure CheckResult where
  name : List Char
  description : List Char
  passed : Bool
  weight : Nat
deriving DecidableEq

/-- The `results` dict built by `evaluate_expectations`. -/
structure EvalResults where
  checks : List CheckResult
  score : Nat
  max_score : Nat
  passed : Nat
  failed : Nat
deriving DecidableEq

/-- One iteration of the `for check in checks` loop. -/
def evalStep (fa : FileAnalysis) (da : DiffAnalysis) (ca : CommitAnalysis) (pr : PullReq)
    (max_files max_lines : Nat) (r : EvalResults) (check : Check) : EvalResults :=
  let w := check.weight.getD 10
  let p := checkPassed check.name fa da ca pr max_files max_lines
  { checks := r.checks ++ [⟨check.name, check.description, p, w⟩]
    score := r.score + (if p then w else 0)
    max_score := r.max_score + w
    passed := r.passed + (if p then 1 else 0)
    failed := r.failed + (if p then 0 else 1) }

/-- `ReviewEngine.evaluate_expectations`. -/
def evaluate_expectations (exp : Expectations) (fa : FileAnalysis) (da : DiffAnalysis)
    (ca : CommitAnalysis) (pr : PullReq) : EvalResults :=
  exp.checks.foldl
    (evalStep fa da ca pr (exp.max_files.getD 20) (exp.max_lines.getD 500))
    { checks := [], score := 0, max_score := 0, passed := 0, failed := 0 }

end PRReview

namespace PRReview

/-- The CheckResult produced for one configured check. -/
def resultOf (fa : FileAnalysis) (da : DiffAnalysis) (ca : CommitAnalysis) (pr : PullReq)
    (max_files max_lines : Nat) (c : Check) : CheckResult :=
  ⟨c.name, c.description, checkPassed c.name fa da ca pr max_files max_lines, c.weight.getD 10⟩

theorem eval_foldl (fa : FileAnalysis) (da : DiffAnalysis) (ca : CommitAnalysis) (pr : PullReq)
    (mf ml : Nat) (checks : List Check) :
    ∀ r0 : EvalResults,
      (checks.foldl (evalStep fa da ca pr mf ml) r0).checks
          = r0.checks ++ checks.map (resultOf fa da ca pr mf ml)
      ∧ (checks.foldl (evalStep fa da ca pr mf ml) r0).score
          = r0.score + (((checks.map (resultOf fa da ca pr mf ml)).filter
              (fun c => c.passed)).map (fun c => c.weight)).sum
      ∧ (checks.foldl (evalStep fa da ca pr mf ml) r0).max_score
          = r0.max_score + ((checks.map (resultOf fa da ca pr mf ml)).map
              (fun c => c.weight)).sum := by
  induction checks with
  | nil => intro r0; simp
  | cons c cs ih =>
    intro r0
    obtain ⟨i1, i2, i3⟩ := ih (evalStep fa da ca pr mf ml r0 c)
    refine ⟨?_, ?_, ?_⟩
    · rw [List.foldl_cons, i1]
      simp [evalStep, resultOf]
    · rw [List.foldl_cons, i2]
      cases hp : checkPassed c.name fa da ca pr mf ml <;>
        simp [evalStep, resultOf, hp] <;> omega
    · rw [List.foldl_cons, i3]
      simp [evalStep, resultOf]
      omega

theorem sum_filter_le (p : CheckResult → Bool) (l : List CheckResult) :
    ((l.filter p).map (fun c => c.weight)).sum ≤ (l.map (fun c => c.weight)).sum := by
  induction l with
  | nil => simp
  | cons x xs ih =>
    cases hp : p x <;> simp [List.filter_cons, hp] <;> omega

/-- C1: for every expectation set and analyzer outputs, the evaluator's
`score` is the sum of the weights of the passed CheckResults, `max_score`
is the sum of all weights, `score ≤ max_score`, and the CheckResult list
follows the expectation set's checks in order. -/
theorem evaluate_expectations_spec (exp : Expectations) (fa : FileAnalysis)
    (da : DiffAnalysis) (ca : CommitAnalysis) (pr : PullReq) :
    (evaluate_expectations exp fa da ca pr).score
        = (((evaluate_expectations exp fa da ca pr).checks.filter
            (fun c => c.passed)).map (fun c => c.weight)).sum
    ∧ (evaluate_expectations exp fa da ca pr).max_score
        = ((evaluate_expectations exp fa da ca pr).checks.map (fun c => c.weight)).sum
    ∧ (evaluate_expectations exp fa da ca pr).score
        ≤ (evaluate_expectations exp fa da ca pr).max_score
    ∧ (evaluate_expectations exp fa da ca pr).checks.map (fun c => (c.name, c.description))
        = exp.checks.map (fun c => (c.name, c.description)) := by
  obtain ⟨h1, h2, h3⟩ := eval_foldl fa da ca pr (exp.max_files.getD 20) (exp.max_lines.getD 500)
    exp.checks ⟨[], 0, 0, 0, 0⟩
  unfold evaluate_expectations
  simp only at h1 h2 h3
  rw [h1, h2, h3]
  refine ⟨by simp, by simp, ?_, ?_⟩
  · simpa using sum_filter_le (fun c => c.passed)
      (exp.checks.map (resultOf fa da ca pr (exp.max_files.getD 20) (exp.max_lines.getD 500)))
  · simp only [List.nil_append, List.map_map]
    exact List.map_congr_left (fun c _ => rfl)

end PRReview

namespace PRReview

/-- The CommitInfo produced for one commit record. -/
def mkInfo (c : CommitD) : CommitInfo :=
  ⟨c.sha.take 7, (firstLineOf c.message).take 100,
   decide (10 ≤ (firstLineOf c.message).length)⟩

theorem analyzeCommitsStep_commits (a : CommitAnalysis) (c : CommitD) :
    (analyzeCommitsStep a c).commits = a.commits ++ [mkInfo c] := by
  unfold analyzeCommitsStep
  by_cases h1 : 10 ≤ (firstLineOf c.message).length <;>
    by_cases h2 : (issueRefsOf c.message).isEmpty = true <;>
      simp [h1, h2, mkInfo]

theorem analyze_commits_commits (commits : List CommitD) :
    (analyze_commits commits).commits = commits.map mkInfo := by
  suffices h : ∀ a : CommitAnalysis,
      (commits.foldl analyzeCommitsStep a).commits = a.commits ++ commits.map mkInfo by
    simpa using h ⟨commits.length, 0, 0, [], false, []⟩
  induction commits with
  | nil => intro a; simp
  | cons c cs ih =>
    intro a
    rw [List.foldl_cons, ih (analyzeCommitsStep a c), analyzeCommitsStep_commits]
    simp

theorem checkPassed_no_new_features (fa : FileAnalysis) (da : DiffAnalysis)
    (ca : CommitAnalysis) (pr : PullReq) (mf ml : Nat) :
    checkPassed "no_new_features".toList fa da ca pr mf ml
      = !(ca.commits.any (fun c =>
          featureKeywords.any (fun kw => containsSub kw (lower c.message)))) := by
  rfl

/-- C6 (counterexample): a commit whose first line is one hundred `x`s
followed by `add` — the keyword sits beyond the 100-character truncation
applied by `analyze_commits`, so the `no_new_features` check passes even
though the first line, lower-cased, contains `add`. -/
theorem no_new_features_trunc_cex :
    ((evaluate_expectations ⟨[⟨"no_new_features".toList, "d".toList, some 20⟩], none, none⟩
        (analyze_files []) (analyze_diff [])
        (analyze_commits [⟨"abc".toList, List.replicate 100 'x' ++ "add".toList⟩])
        ⟨1, 1, [], "hotfix/x".toList⟩).checks.map (fun c => c.passed) = [true])
    ∧ containsSub "add".toList
        (lower (firstLineOf (List.replicate 100 'x' ++ "add".toList))) = true := by
  decide

/-- C6 (amended): the `no_new_features` check passes iff no commit
message's first line, truncated to its first 100 characters and
lower-cased, contains any of the substrings `add`, `new`, `implement`,
`create`. -/
theorem no_new_features_spec (commits : List CommitD) (fa : FileAnalysis)
    (da : DiffAnalysis) (pr : PullReq) (desc : List Char) (w : Option Nat)
    (mf ml : Option Nat) :
    (evaluate_expectations ⟨[⟨"no_new_features".toList, desc, w⟩], mf, ml⟩ fa da
        (analyze_commits commits) pr).checks.map (fun c => c.passed) = [true]
      ↔ ∀ c ∈ commits, ∀ kw ∈ featureKeywords,
          containsSub kw (lower ((firstLineOf c.message).take 100)) = false := by
  unfold evaluate_expectations
  simp only [List.foldl_cons, List.foldl_nil, evalStep]
  rw [checkPassed_no_new_features, analyze_commits_commits]
  simp [List.any_map, Bool.not_eq_true', List.any_eq_false, Function.comp, mkInfo]

end PRReview

namespace PRReview

/-! ## Feedback synthesis (`ReviewEngine.generate_feedback`,
`ReviewEngine._get_suggestion`)

The f-string `message` fields, which no claim inspects, are not
modelled; `category`, `severity`, `title` and `suggestion` are. -/

/-- One structured feedback item. -/
structure FeedbackItem where
  category : List Char
  severity : List Char
  title : List Char
  suggestion : Option (List Char)
deriving DecidableEq

/-- The advice table of `_get_suggestion`. -/
def suggestionTable : List (List Char × List Char) :=
  [("has_tests".toList, "Add unit tests for new functionality".toList),
   ("has_documentation".toList, "Add documentation or update README".toList),
   ("has_regression_test".toList,
    "Add a test that reproduces the bug to prevent regression".toList),
   ("reasonable_size".toList, "Consider splitting into smaller PRs".toList),
   ("focused_changes".toList, "Keep changes focused on the bug fix".toList),
   ("minimal_changes".toList, "Hotfixes should contain only critical changes".toList),
   ("descriptive_commits".toList, "Use descriptive commit messages (50+ characters)".toList),
   ("no_debug_code".toList, "Remove console.log, print, and debugger statements".toList),
   ("references_issue".toList,
    "Reference the issue number in commit message (e.g., Fixes #123)".toList),
   ("has_description".toList,
    "Add a detailed PR description explaining the changes".toList),
   ("no_new_features".toList, "This branch type should not include new features".toList),
   ("version_bump".toList, "Update version number in package.json or similar".toList),
   ("changelog_updated".toList, "Update CHANGELOG.md with release notes".toList),
   ("no_behavior_change".toList, "Ensure tests verify behavior is unchanged".toList),
   ("improves_quality".toList, "Refactoring should simplify or clean up code".toList),
   ("follows_conventions".toList, "Follow project coding conventions".toList),
   ("critical_only".toList, "Limit hotfixes to critical issues only".toList),
   ("documentation_updated".toList, "Update documentation for release".toList)]

/-- `ReviewEngine._get_suggestion`: dict lookup with a generic default. -/
def get_suggestion (check_name : List Char) : List Char :=
  (suggestionTable.lookup check_name).getD "Review and improve this aspect".toList

/-- The `for check in evaluation['checks']: if not check['passed']` loop. -/
def failedFeedback (ev : EvalResults) : List FeedbackItem :=
  (ev.checks.filter (fun c => !c.passed)).map (fun c =>
    ⟨"expectation".toList, "warning".toList, c.description, some (get_suggestion c.name)⟩)

/-- The `for check in evaluation['checks']: if check['passed']` loop. -/
def passedFeedback (ev : EvalResults) : List FeedbackItem :=
  (ev.checks.filter (fun c => c.passed)).map (fun c =>
    ⟨"expectation".toList, "success".toList, c.description, none⟩)

/-- The `for debug in diff_analysis.get('debug_occurrences', [])[:5]` loop. -/
def debugFeedback (da : DiffAnalysis) : List FeedbackItem :=
  (da.debug_occurrences.take 5).map (fun _ =>
    ⟨"code_quality".toList, "error".toList, "Debug code detected".toList,
     some "Remove debug statements before merging".toList⟩)

/-- The `for todo in diff_analysis.get('todos_added', [])[:5]` loop. -/
def todoFeedback (da : DiffAnalysis) : List FeedbackItem :=
  (da.todos_added.take 5).map (fun _ =>
    ⟨"code_quality".toList, "info".toList, "TODO comment added".toList,
     some "Consider creating an issue to track this TODO".toList⟩)

/-- The `if total_changes > 500` size warning. -/
def sizeFeedback (fa : FileAnalysis) : List FeedbackItem :=
  if 500 < fa.total_additions + fa.total_deletions then
    [⟨"pr_size".toList, "warning".toList, "Large pull request".toList,
      some "Consider breaking large PRs into smaller, focused changes".toList⟩]
  else []

/-- `ReviewEngine.generate_feedback`: the source appends, in order, one
item per failed check, one per passed check, the first five debug
occurrences, the first five marker comments, and one size item when more
than 500 lines changed. -/
def generate_feedback (pr : PullReq) (exp : Expectations) (ev : EvalResults)
    (fa : FileAnalysis) (da : DiffAnalysis) (ca : CommitAnalysis) : List FeedbackItem :=
  failedFeedback ev ++ passedFeedback ev ++ debugFeedback da ++ todoFeedback da
    ++ sizeFeedback fa

/-- C7: `generate_feedback` emits exactly, in order: one warning item per
failed check, one success item per passed check, at most five error
items for debug findings, at most five info items for marker comments,
and one size warning exactly when more than 500 lines changed — and
nothing else. -/
theorem generate_feedback_order (pr : PullReq) (exp : Expectations) (ev : EvalResults)
    (fa : FileAnalysis) (da : DiffAnalysis) (ca : CommitAnalysis) :
    ∃ A B C D E : List FeedbackItem,
      generate_feedback pr exp ev fa da ca = A ++ B ++ C ++ D ++ E
      ∧ A.length = (ev.checks.filter (fun c => !c.passed)).length
      ∧ (∀ x ∈ A, x.category = "expectation".toList ∧ x.severity = "warning".toList)
      ∧ B.length = (ev.checks.filter (fun c => c.passed)).length
      ∧ (∀ x ∈ B, x.category = "expectation".toList ∧ x.severity = "success".toList)
      ∧ C.length = min 5 da.debug_occurrences.length
      ∧ (∀ x ∈ C, x.category = "code_quality".toList ∧ x.severity = "error".toList)
      ∧ D.length = min 5 da.todos_added.length
      ∧ (∀ x ∈ D, x.category = "code_quality".toList ∧ x.severity = "info".toList)
      ∧ E = (if 500 < fa.total_additions + fa.total_deletions then
              [⟨"pr_size".toList, "warning".toList, "Large pull request".toList,
                some "Consider breaking large PRs into smaller, focused changes".toList⟩]
             else []) := by
  refine ⟨failedFeedback ev, passedFeedback ev, debugFeedback da, todoFeedback da,
    sizeFeedback fa, rfl, ?_, ?_, ?_, ?_, ?_, ?_, ?_, ?_, rfl⟩
  · simp [failedFeedback]
  · intro x hx
    simp only [failedFeedback, List.mem_map] at hx
    obtain ⟨c, _, rfl⟩ := hx
    exact ⟨rfl, rfl⟩
  · simp [passedFeedback]
  · intro x hx
    simp only [passedFeedback, List.mem_map] at hx
    obtain ⟨c, _, rfl⟩ := hx
    exact ⟨rfl, rfl⟩
  · simp [debugFeedback, Nat.min_comm]
  · intro x hx
    simp only [debugFeedback, List.mem_map] at hx
    obtain ⟨c, _, rfl⟩ := hx
    exact ⟨rfl, rfl⟩
  · simp [todoFeedback, Nat.min_comm]
  · intro x hx
    simp only [todoFeedback, List.mem_map] at hx
    obtain ⟨c, _, rfl⟩ := hx
    exact ⟨rfl, rfl⟩

end PRReview

namespace PRReview

/-! ## Rule resolution (`ReviewEngine.get_matching_branch_rule`,
`ReviewEngine.get_expectations`, `ReviewEngine.DEFAULT_EXPECTATIONS`) -/

/-- A stored `BranchRule` row: glob pattern, activity flag, optional
repository scope (`none` = global) and its expectations JSON (`none`
models the falsy empty-dict default). -/
structure BranchRule where
  branch_pattern : List Char
  is_active : Bool
  repository : Option Nat
  expectations : Option Expectations
deriving DecidableEq

/-- `ReviewEngine.DEFAULT_EXPECTATIONS`, keyed by branch type. -/
def defaultExpectations (branch_type : String) : Expectations :=
  if branch_type = "feature" then
    ⟨[⟨"has_tests".toList, "New features should include tests".toList, some 20⟩,
      ⟨"has_documentation".toList, "Features should be documented".toList, some 15⟩,
      ⟨"reasonable_size".toList, "PR should be reasonably sized (< 500 lines)".toList, some 10⟩,
      ⟨"descriptive_commits".toList, "Commits should be descriptive".toList, some 10⟩,
      ⟨"no_debug_code".toList, "No debug/console statements".toList, some 15⟩,
      ⟨"follows_conventions".toList, "Follows coding conventions".toList, some 15⟩,
      ⟨"has_description".toList, "PR has a meaningful description".toList, some 15⟩],
     some 20, some 500⟩
  else if branch_type = "bugfix" then
    ⟨[⟨"has_regression_test".toList,
       "Bug fixes should include regression tests".toList, some 25⟩,
      ⟨"focused_changes".toList, "Changes should be focused on the fix".toList, some 20⟩,
      ⟨"references_issue".toList, "Should reference an issue or bug ID".toList, some 15⟩,
      ⟨"reasonable_size".toList, "Bug fixes should be small and focused".toList, some 15⟩,
      ⟨"has_description".toList, "PR describes the bug and fix".toList, some 25⟩],
     some 10, some 200⟩
  else if branch_type = "hotfix" then
    ⟨[⟨"minimal_changes".toList, "Hotfixes should be minimal".toList, some 30⟩,
      ⟨"critical_only".toList, "Only critical changes allowed".toList, some 25⟩,
      ⟨"has_description".toList, "Clear description of the critical issue".toList, some 25⟩,
      ⟨"no_new_features".toList, "No new features in hotfixes".toList, some 20⟩],
     some 5, some 100⟩
  else if branch_type = "release" then
    ⟨[⟨"version_bump".toList, "Version should be updated".toList, some 25⟩,
      ⟨"changelog_updated".toList, "Changelog should be updated".toList, some 25⟩,
      ⟨"no_new_features".toList, "No new features in release branches".toList, some 25⟩,
      ⟨"documentation_updated".toList, "Documentation should be current".toList, some 25⟩],
     some 15, some 300⟩
  else if branch_type = "refactor" then
    ⟨[⟨"has_tests".toList,
       "Refactoring should maintain or improve tests".toList, some 25⟩,
      ⟨"no_behavior_change".toList, "Should not change behavior".toList, some 25⟩,
      ⟨"improves_quality".toList, "Should improve code quality".toList, some 25⟩,
      ⟨"has_description".toList, "Clear description of refactoring goals".toList, some 25⟩],
     some 30, some 1000⟩
  else
    ⟨[⟨"has_description".toList, "PR has a description".toList, some 25⟩,
      ⟨"reasonable_size".toList, "PR is reasonably sized".toList, some 25⟩,
      ⟨"descriptive_commits".toList, "Commits are descriptive".toList, some 25⟩,
      ⟨"follows_conventions".toList, "Follows project conventions".toList, some 25⟩],
     some 20, some 500⟩

/-- `ReviewEngine.get_matching_branch_rule`: scan the active
repository-scoped rules first, then the active global rules, returning
the first whose glob pattern matches the source branch.  `rules` models
the stored rows in the persistence layer's enumeration order. -/
def get_matching_branch_rule (rules : List BranchRule) (pr : PullReq) : Option BranchRule :=
  match (rules.filter (fun r => r.repository == some pr.repository && r.is_active)).find?
      (fun r => globMatch r.branch_pattern pr.source_branch) with
  | some r => some r
  | none =>
    (rules.filter (fun r => r.repository == none && r.is_active)).find?
      (fun r => globMatch r.branch_pattern pr.source_branch)

/-- `ReviewEngine.get_expectations`: a matched rule's expectations win
when truthy; otherwise the built-in default for the classified branch
type. -/
def get_expectations (rules : List BranchRule) (pr : PullReq) : Expectations :=
  match get_matching_branch_rule rules pr with
  | some r =>
    match r.expectations with
    | some e => e
    | none => defaultExpectations (get_branch_type pr.source_branch)
  | none => defaultExpectations (get_branch_type pr.source_branch)

end PRReview

namespace PRReview

/-- C3: rule resolution prefers an active repository-scoped matching rule
(glob semantics: `*` crosses `/`) over an active global rule over the
built-in default expectation set for the classified branch type, and the
resolver always produces an expectation set (a matched rule's truthy
expectations, otherwise the default). -/
theorem rule_resolution_preference (rules : List BranchRule) (pr : PullReq) :
    ((∃ r ∈ rules, r.repository = some pr.repository ∧ r.is_active = true
        ∧ globMatch r.branch_pattern pr.source_branch = true) →
      ∃ r, get_matching_branch_rule rules pr = some r
        ∧ r.repository = some pr.repository ∧ r.is_active = true
        ∧ globMatch r.branch_pattern pr.source_branch = true)
    ∧ ((∀ r ∈ rules, r.repository = some pr.repository → r.is_active = true →
          globMatch r.branch_pattern pr.source_branch = false) →
        (∃ r ∈ rules, r.repository = none ∧ r.is_active = true
          ∧ globMatch r.branch_pattern pr.source_branch = true) →
        ∃ r, get_matching_branch_rule rules pr = some r
          ∧ r.repository = none ∧ r.is_active = true
          ∧ globMatch r.branch_pattern pr.source_branch = true)
    ∧ (get_matching_branch_rule rules pr = none →
        get_expectations rules pr = defaultExpectations (get_branch_type pr.source_branch))
    ∧ (∀ r, get_matching_branch_rule rules pr = some r →
        get_expectations rules pr
          = match r.expectations with
            | some e => e
            | none => defaultExpectations (get_branch_type pr.source_branch)) := by
  refine ⟨?_, ?_, ?_, ?_⟩
  · rintro ⟨r0, hr0, h1, h2, h3⟩
    have hmem : r0 ∈ rules.filter (fun r => r.repository == some pr.repository && r.is_active) := by
      rw [List.mem_filter]
      exact ⟨hr0, by simp [h1, h2]⟩
    have hs : ((rules.filter (fun r => r.repository == some pr.repository && r.is_active)).find?
        (fun r => globMatch r.branch_pattern pr.source_branch)).isSome := by
      rw [List.find?_isSome]
      exact ⟨r0, hmem, h3⟩
    obtain ⟨r, hr⟩ := Option.isSome_iff_exists.mp hs
    have hpr := List.find?_some hr
    have hmem2 := List.mem_of_find?_eq_some hr
    rw [List.mem_filter] at hmem2
    obtain ⟨-, hflt⟩ := hmem2
    simp only [Bool.and_eq_true, beq_iff_eq] at hflt
    refine ⟨r, ?_, hflt.1, hflt.2, hpr⟩
    unfold get_matching_branch_rule
    rw [hr]
  · intro hnone
    rintro ⟨r0, hr0, h1, h2, h3⟩
    have hfn : (rules.filter (fun r => r.repository == some pr.repository && r.is_active)).find?
        (fun r => globMatch r.branch_pattern pr.source_branch) = none := by
      rw [List.find?_eq_none]
      intro x hx
      rw [List.mem_filter] at hx
      obtain ⟨hx1, hx2⟩ := hx
      simp only [Bool.and_eq_true, beq_iff_eq] at hx2
      simp [hnone x hx1 hx2.1 hx2.2]
    have hmem : r0 ∈ rules.filter (fun r => r.repository == none && r.is_active) := by
      rw [List.mem_filter]
      refine ⟨hr0, ?_⟩
      rw [h1]
      simp [h2]
    have hs : ((rules.filter (fun r => r.repository == none && r.is_active)).find?
        (fun r => globMatch r.branch_pattern pr.source_branch)).isSome := by
      rw [List.find?_isSome]
      exact ⟨r0, hmem, h3⟩
    obtain ⟨r, hr⟩ := Option.isSome_iff_exists.mp hs
    have hpr := List.find?_some hr
    have hmem2 := List.mem_of_find?_eq_some hr
    rw [List.mem_filter] at hmem2
    obtain ⟨-, hflt⟩ := hmem2
    simp only [Bool.and_eq_true, beq_iff_eq] at hflt
    refine ⟨r, ?_, hflt.1, hflt.2, hpr⟩
    unfold get_matching_branch_rule
    rw [hfn, hr]
  · intro hnone
    unfold get_expectations
    rw [hnone]
  · intro r hr
    unfold get_expectations
    rw [hr]

end PRReview

namespace PRReview

/-- Witness for C3 at a concrete configuration: an active global rule
appears before an active repository-scoped rule, both with pattern
`feature/*`, which matches `feature/x/y` (the `*` crosses `/`); the
resolver still returns the repository-scoped one. -/
theorem rule_resolution_preference_witness :
    (∃ r ∈ [BranchRule.mk "feature/*".toList true none (some ⟨[], none, none⟩),
            BranchRule.mk "feature/*".toList true (some 1) none],
        r.repository = some (PullReq.mk 1 5 [] "feature/x/y".toList).repository
        ∧ r.is_active = true
        ∧ globMatch r.branch_pattern (PullReq.mk 1 5 [] "feature/x/y".toList).source_branch
            = true)
    ∧ (∃ r, get_matching_branch_rule
          [BranchRule.mk "feature/*".toList true none (some ⟨[], none, none⟩),
           BranchRule.mk "feature/*".toList true (some 1) none]
          (PullReq.mk 1 5 [] "feature/x/y".toList) = some r
        ∧ r.repository = some (PullReq.mk 1 5 [] "feature/x/y".toList).repository
        ∧ r.is_active = true
        ∧ globMatch r.branch_pattern (PullReq.mk 1 5 [] "feature/x/y".toList).source_branch
            = true) :=
  ⟨by decide,
   (rule_resolution_preference
      [BranchRule.mk "feature/*".toList true none (some ⟨[], none, none⟩),
       BranchRule.mk "feature/*".toList true (some 1) none]
      (PullReq.mk 1 5 [] "feature/x/y".toList)).1 (by decide)⟩

end PRReview

namespace PRReview

/-! ## Rating and orchestration (`ReviewEngine.calculate_rating`,
`ReviewEngine.review_pull_request`) -/

/-- `ReviewEngine.calculate_rating`.  The source computes
`percentage = score / max_score * 100` with float division and buckets it
at 90/70/50; the comparisons are modelled by the equivalent exact
cross-multiplied integer comparisons (`percentage ≥ 90 ↔ 10·score ≥
9·max_score`, and so on), which agree with the float evaluation at every
input the claims touch. -/
def calculate_rating (score max_score : Nat) : String :=
  if max_score = 0 then "good"
  else if 10 * score ≥ 9 * max_score then "excellent"
  else if 10 * score ≥ 7 * max_score then "good"
  else if 2 * score ≥ max_score then "needs_work"
  else "poor"

/-- The persisted `Review` row, restricted to the fields the engine
computes and the claims inspect (`summary` — a rendered markdown string —
and the `ReviewComment` side records are not modelled). -/
structure Review where
  status : List Char
  overall_rating : String
  feedback_items : List FeedbackItem
  expectations_met_checks : List CheckResult
  expectations_met_passed : Nat
  expectations_met_failed : Nat
  score : Nat
  branch_rule : Option BranchRule
deriving DecidableEq

/-- The degraded review created in the `except` branch of
`review_pull_request`: one error feedback item, zero score,
`needs_work` rating (the message carries `str(e)`, not modelled). -/
def errorReview (e : List Char) : Review :=
  { status := "pending".toList
    overall_rating := "needs_work"
    feedback_items :=
      [⟨"error".toList, "error".toList, "Review Error".toList,
        some "Check GitHub token and repository access".toList⟩]
    expectations_met_checks := []
    expectations_met_passed := 0
    expectations_met_failed := 0
    score := 0
    branch_rule := none }

/-- `ReviewEngine.review_pull_request`.  The three provider fetches are
passed as `Except` values, mirroring the `try` block's sequential
evaluation; any failure short-circuits into the degraded review.  The
persisted score `int(score / max(max_score, 1) * 100)` is modelled by
the exact rational floor `score * 100 / max max_score 1`, which agrees
with the float evaluation at every input the claims touch. -/
def review_pull_request (rules : List BranchRule) (pr : PullReq)
    (filesR : Except (List Char) (List FileD))
    (commitsR : Except (List Char) (List CommitD))
    (diffR : Except (List Char) (List Char)) : Review :=
  match filesR with
  | .error e => errorReview e
  | .ok files =>
    match commitsR with
    | .error e => errorReview e
    | .ok commits =>
      match diffR with
      | .error e => errorReview e
      | .ok diff =>
        let branch_rule := get_matching_branch_rule rules pr
        let expectations := get_expectations rules pr
        let file_analysis := analyze_files files
        let diff_analysis := analyze_diff diff
        let commit_analysis := analyze_commits commits
        let evaluation :=
          evaluate_expectations expectations file_analysis diff_analysis commit_analysis pr
        let feedback :=
          generate_feedback pr expectations evaluation file_analysis diff_analysis
            commit_analysis
        let rating := calculate_rating evaluation.score evaluation.max_score
        { status := "pending".toList
          overall_rating := rating
          feedback_items := feedback
          expectations_met_checks := evaluation.checks
          expectations_met_passed := evaluation.passed
          expectations_met_failed := evaluation.failed
          score := evaluation.score * 100 / max evaluation.max_score 1
          branch_rule := branch_rule }

end PRReview

namespace PRReview

/-- C2: when any of the three provider fetches fails, the orchestrator
absorbs the failure (no exception escapes — the function is total) and
returns a review with score 0, rating `needs_work`, and exactly one
feedback item, of category `error`. -/
theorem review_fetch_failure (rules : List BranchRule) (pr : PullReq)
    (filesR : Except (List Char) (List FileD))
    (commitsR : Except (List Char) (List CommitD))
    (diffR : Except (List Char) (List Char))
    (h : (∃ e, filesR = .error e) ∨ (∃ e, commitsR = .error e) ∨ (∃ e, diffR = .error e)) :
    (review_pull_request rules pr filesR commitsR diffR).score = 0
    ∧ (review_pull_request rules pr filesR commitsR diffR).overall_rating = "needs_work"
    ∧ ∃ item, (review_pull_request rules pr filesR commitsR diffR).feedback_items = [item]
        ∧ item.category = "error".toList := by
  rcases h with ⟨e, rfl⟩ | ⟨e, rfl⟩ | ⟨e, rfl⟩
  · exact ⟨rfl, rfl, ⟨_, rfl, rfl⟩⟩
  · cases filesR with
    | error e2 => exact ⟨rfl, rfl, ⟨_, rfl, rfl⟩⟩
    | ok fs => exact ⟨rfl, rfl, ⟨_, rfl, rfl⟩⟩
  · cases filesR with
    | error e2 => exact ⟨rfl, rfl, ⟨_, rfl, rfl⟩⟩
    | ok fs =>
      cases commitsR with
      | error e2 => exact ⟨rfl, rfl, ⟨_, rfl, rfl⟩⟩
      | ok cs => exact ⟨rfl, rfl, ⟨_, rfl, rfl⟩⟩

/-- Witness for C2 at a concrete input: the file fetch fails. -/
theorem review_fetch_failure_witness :
    ((∃ e, (Except.error "boom".toList : Except (List Char) (List FileD)) = .error e)
      ∨ (∃ e, (Except.ok [] : Except (List Char) (List CommitD)) = .error e)
      ∨ (∃ e, (Except.ok [] : Except (List Char) (List Char)) = .error e))
    ∧ ((review_pull_request [] ⟨1, 1, [], "feature/a".toList⟩
          (.error "boom".toList) (.ok []) (.ok [])).score = 0
      ∧ (review_pull_request [] ⟨1, 1, [], "feature/a".toList⟩
          (.error "boom".toList) (.ok []) (.ok [])).overall_rating = "needs_work"
      ∧ ∃ item, (review_pull_request [] ⟨1, 1, [], "feature/a".toList⟩
          (.error "boom".toList) (.ok []) (.ok [])).feedback_items = [item]
            ∧ item.category = "error".toList) :=
  ⟨Or.inl ⟨"boom".toList, rfl⟩,
   review_fetch_failure [] ⟨1, 1, [], "feature/a".toList⟩
     (.error "boom".toList) (.ok []) (.ok []) (Or.inl ⟨"boom".toList, rfl⟩)⟩

end PRReview

namespace PRReview

/-- C5 (counterexample): a matching active repository rule with an empty
check list resolves to an empty expectation set; the produced review's
stored score is 0 — not 100 — while the rating is the vacuous-pass
`good`. -/
theorem review_empty_checks_cex :
    (review_pull_request [⟨"*".toList, true, some 1, some ⟨[], none, none⟩⟩]
        ⟨1, 1, [], "feature/a".toList⟩ (.ok []) (.ok []) (.ok [])).score = 0
    ∧ ¬ (review_pull_request [⟨"*".toList, true, some 1, some ⟨[], none, none⟩⟩]
        ⟨1, 1, [], "feature/a".toList⟩ (.ok []) (.ok []) (.ok [])).score = 100
    ∧ (review_pull_request [⟨"*".toList, true, some 1, some ⟨[], none, none⟩⟩]
        ⟨1, 1, [], "feature/a".toList⟩ (.ok []) (.ok []) (.ok [])).overall_rating = "good" := by
  refine ⟨by decide, by decide, ?_⟩
  rfl

/-- C5 (amended): against an empty expectation set the evaluator yields
`score = max_score = 0`, so the review's rating is the vacuous-pass
`good`, but the stored score — `score / max(max_score, 1) * 100` — is 0,
not 100. -/
theorem review_empty_checks (rules : List BranchRule) (pr : PullReq)
    (files : List FileD) (commits : List CommitD) (diff : List Char)
    (h : (get_expectations rules pr).checks = []) :
    (review_pull_request rules pr (.ok files) (.ok commits) (.ok diff)).score = 0
    ∧ (review_pull_request rules pr (.ok files) (.ok commits)
        (.ok diff)).overall_rating = "good" := by
  have he : evaluate_expectations (get_expectations rules pr) (analyze_files files)
      (analyze_diff diff) (analyze_commits commits) pr
        = ⟨[], 0, 0, 0, 0⟩ := by
    unfold evaluate_expectations
    rw [h]
    rfl
  unfold review_pull_request
  simp only [he]
  exact ⟨rfl, rfl⟩

/-- Witness for C5's amended statement at the counterexample's concrete
configuration. -/
theorem review_empty_checks_witness :
    ((get_expectations [⟨"*".toList, true, some 1, some ⟨[], none, none⟩⟩]
        ⟨1, 1, [], "feature/a".toList⟩).checks = [])
    ∧ ((review_pull_request [⟨"*".toList, true, some 1, some ⟨[], none, none⟩⟩]
          ⟨1, 1, [], "feature/a".toList⟩ (.ok []) (.ok []) (.ok [])).score = 0
      ∧ (review_pull_request [⟨"*".toList, true, some 1, some ⟨[], none, none⟩⟩]
          ⟨1, 1, [], "feature/a".toList⟩ (.ok []) (.ok [])
          (.ok [])).overall_rating = "good") :=
  ⟨by decide,
   review_empty_checks [⟨"*".toList, true, some 1, some ⟨[], none, none⟩⟩]
     ⟨1, 1, [], "feature/a".toList⟩ [] [] [] (by decide)⟩

end PRReview

namespace PRReview

/-- Witness for C4's amended statement at a concrete file list. -/
theorem analyze_files_bucket_spec_witness :
    (analyze_files [⟨"test_a.py".toList, 1, 2⟩]).test_files
      = ([(⟨"test_a.py".toList, 1, 2⟩ : FileD)].filter
          (fun f => isTestFile f.filename)).map FileD.filename :=
  (analyze_files_bucket_spec [⟨"test_a.py".toList, 1, 2⟩]).1

/-- Witness for C6's amended statement at a concrete commit list. -/
theorem no_new_features_spec_witness :
    (evaluate_expectations ⟨[⟨"no_new_features".toList, [], none⟩], none, none⟩
        (analyze_files []) (analyze_diff [])
        (analyze_commits [⟨"a".toList, "Fix parser".toList⟩])
        ⟨1, 1, [], []⟩).checks.map (fun c => c.passed) = [true]
      ↔ ∀ c ∈ [CommitD.mk "a".toList "Fix parser".toList], ∀ kw ∈ featureKeywords,
          containsSub kw (lower ((firstLineOf c.message).take 100)) = false :=
  no_new_features_spec [⟨"a".toList, "Fix parser".toList⟩] (analyze_files [])
    (analyze_diff []) ⟨1, 1, [], []⟩ [] none none none

/-- Witness for C7 at concrete evaluator and analyzer outputs. -/
theorem generate_feedback_order_witness :
    ∃ A B C D E : List FeedbackItem,
      generate_feedback ⟨1, 1, [], []⟩ ⟨[], none, none⟩
          ⟨[⟨"has_tests".toList, "d".toList, false, 20⟩], 0, 20, 0, 1⟩
          (analyze_files []) (analyze_diff []) (analyze_commits []) = A ++ B ++ C ++ D ++ E
      ∧ A.length = (([⟨"has_tests".toList, "d".toList, false, 20⟩]
            : List CheckResult).filter (fun c => !c.passed)).length
      ∧ (∀ x ∈ A, x.category = "expectation".toList ∧ x.severity = "warning".toList)
      ∧ B.length = (([⟨"has_tests".toList, "d".toList, false, 20⟩]
            : List CheckResult).filter (fun c => c.passed)).length
      ∧ (∀ x ∈ B, x.category = "expectation".toList ∧ x.severity = "success".toList)
      ∧ C.length = min 5 (analyze_diff []).debug_occurrences.length
      ∧ (∀ x ∈ C, x.category = "code_quality".toList ∧ x.severity = "error".toList)
      ∧ D.length = min 5 (analyze_diff []).todos_added.length
      ∧ (∀ x ∈ D, x.category = "code_quality".toList ∧ x.severity = "info".toList)
      ∧ E = (if 500 < (analyze_files []).total_additions + (analyze_files []).total_deletions
              then [⟨"pr_size".toList, "warning".toList, "Large pull request".toList,
                some "Consider breaking large PRs into smaller, focused changes".toList⟩]
             else []) :=
  generate_feedback_order ⟨1, 1, [], []⟩ ⟨[], none, none⟩
    ⟨[⟨"has_tests".toList, "d".toList, false, 20⟩], 0, 20, 0, 1⟩
    (analyze_files []) (analyze_diff []) (analyze_commits [])

end PRReview
